import Mathlib

/-!
Shallow embedding of the data pipeline of `app.py` (public-procurement
dashboard).  The pipeline is: load (API or local JSON) → emptiness guard →
normalization (column lower/strip, `pd.to_numeric(..., errors="coerce")`,
year fallback, date synthesis via `pd.to_datetime`, province overwrite) →
category filter (`isin`) → KPIs and three aggregate views (groupby sums and
a month×type pivot).  Monetary amounts and numeric cells are modelled as
rationals; a pandas `NaN` cell is modelled as `Option.none`.
-/

namespace Compras

/-- A JSON-like scalar as it appears in a raw record (string / number / null).
A missing key and an explicit null both become `NaN` in the DataFrame; both
are modelled by `null` (see `getVal`). -/
inductive RawValue where
  | str (s : String)
  | num (q : ℚ)
  | null
deriving DecidableEq, Repr

/-- A raw record: one JSON object of the API payload, a finite mapping from
field names to scalar values (association list; first binding wins, matching
the uniqueness of JSON object keys). -/
abbrev RawRecord := List (String × RawValue)

/-- Column access on one record: a missing key is a `NaN` cell, i.e. `null`. -/
def getVal (r : RawRecord) (k : String) : RawValue :=
  match r.find? (fun kv => kv.1 == k) with
  | some kv => kv.2
  | none => .null

/-- Whitespace as Python's `str.strip` removes it (the forms that occur in
field names). -/
def isSpace (c : Char) : Bool :=
  c = ' ' || c = '\t' || c = '\n' || c = '\r'

/-- Python's `str.lower` on one character (ASCII range, which covers the
column names at hand). -/
def pyLowerChar (c : Char) : Char :=
  if 'A' ≤ c ∧ c ≤ 'Z' then Char.ofNat (c.toNat + 32) else c

/-- Python's `str.strip`: drop leading and trailing whitespace. -/
def pyStrip (s : String) : String :=
  String.mk (((s.toList.dropWhile isSpace).reverse.dropWhile isSpace).reverse)

/-- Python's `str.lower`. -/
def pyLower (s : String) : String :=
  String.mk (s.toList.map pyLowerChar)

/-- Lexicographic comparison of char lists by code point — how Python
compares strings (`sorted` on the category labels). -/
def charListLt : List Char → List Char → Bool
  | [], [] => false
  | [], _ :: _ => true
  | _ :: _, [] => false
  | a :: s, b :: t => if a < b then true else if b < a then false else charListLt s t

/-- Python's `<` on strings. -/
def strLtB (a b : String) : Bool := charListLt a.data b.data

/-- Python's `≤` on strings (the negation of the reversed `<`). -/
def strLeB (a b : String) : Bool := !(charListLt b.data a.data)

/-- Line 78 of app.py: `df.columns = [c.strip().lower() for c in df.columns]`. -/
def lowerRecs (raw : List RawRecord) : List RawRecord :=
  raw.map (fun r => r.map (fun kv => (pyLower (pyStrip kv.1), kv.2)))

/-- Whether the DataFrame built from `recs` has a column `k`: the union of
the records' key sets contains `k`.  Accessing an absent column raises
`KeyError` in pandas. -/
def hasCol (recs : List RawRecord) (k : String) : Bool :=
  recs.any (fun r => r.any (fun kv => kv.1 == k))

/-- `df.empty` for the DataFrame built from `raw`: true when there are no
rows or no columns at all. -/
def dfEmpty (raw : List RawRecord) : Bool :=
  raw.isEmpty || raw.all (fun r => r.isEmpty)

/-- Value of a digit string (most significant digit first). -/
def digitsVal (cs : List Char) : Nat :=
  cs.foldl (fun a c => a * 10 + (c.toNat - 48)) 0

/-- The reduced rational `n / d` built by explicit gcd cancellation.  This is
the same value as `mkRat n d`; it is spelled out so that it evaluates by
kernel reduction (the library's rational arithmetic is sealed). -/
def myMkRat (n : Int) (d : Nat) : ℚ :=
  if hd : d = 0 then 0
  else
    ⟨n / (n.natAbs.gcd d : Int), d / n.natAbs.gcd d,
      by
        have hg : n.natAbs.gcd d ≠ 0 := fun h => hd (Nat.gcd_eq_zero_iff.mp h).2
        have hdvd := Nat.gcd_dvd_right n.natAbs d
        exact (Nat.div_pos (Nat.le_of_dvd (Nat.pos_of_ne_zero hd) hdvd)
          (Nat.pos_of_ne_zero hg)).ne',
      by
        have hg : n.natAbs.gcd d ≠ 0 := fun h => hd (Nat.gcd_eq_zero_iff.mp h).2
        have hgn : ((n.natAbs.gcd d : Nat) : Int) ∣ n :=
          Int.dvd_natAbs.mp (Int.natCast_dvd_natCast.mpr (Nat.gcd_dvd_left n.natAbs d))
        rw [Int.natAbs_ediv n (n.natAbs.gcd d : Int) hgn]
        rw [show ((n.natAbs.gcd d : Nat) : Int).natAbs = n.natAbs.gcd d from rfl]
        exact Nat.coprime_div_gcd_div_gcd (Nat.pos_of_ne_zero hg)⟩

/-- Rational addition, spelled out on numerators and denominators so that it
evaluates by kernel reduction.  `ratAdd_eq` proves it equal to `+`. -/
def ratAdd (a b : ℚ) : ℚ := myMkRat (a.num * b.den + b.num * a.den) (a.den * b.den)

/-- Sum of a list of rationals (`pandas` column sum); equal to `List.sum` by
`listRatSum_eq`. -/
def listRatSum : List ℚ → ℚ
  | [] => 0
  | a :: t => ratAdd a (listRatSum t)

/-- Division of a rational by a natural count (the mean's denominator);
equal to `· / ·` by `divNat_eq`. -/
def divNat (q : ℚ) (n : Nat) : ℚ := myMkRat q.num (q.den * n)

/-- Numeric parse of a string, as `pd.to_numeric` accepts it: optional sign,
integer part, optional decimal point and fractional part.  The boolean is
true when the literal is a float literal (it contains a point), since that
forces a float dtype on the column.  Exponent notation, accepted by pandas,
is not reproduced; no input of interest uses it. -/
def parseDecimal (s : String) : Option (ℚ × Bool) :=
  let cs := s.toList
  let neg : Bool := match cs with
    | '-' :: _ => true
    | _ => false
  let rest := match cs with
    | '-' :: t => t
    | '+' :: t => t
    | _ => cs
  let ip := rest.takeWhile Char.isDigit
  let rest2 := rest.dropWhile Char.isDigit
  match rest2 with
  | [] =>
    if ip.isEmpty then none
    else some ((if neg then -(digitsVal ip : ℚ) else (digitsVal ip : ℚ)), false)
  | '.' :: fp =>
    if fp.all Char.isDigit && !(ip.isEmpty && fp.isEmpty) then
      some (myMkRat
        (if neg then -((digitsVal ip * 10 ^ fp.length + digitsVal fp : Nat) : Int)
         else ((digitsVal ip * 10 ^ fp.length + digitsVal fp : Nat) : Int))
        (10 ^ fp.length), true)
    else none
  | _ => none

/-- `pd.to_numeric(cell, errors="coerce")`, keeping track of whether the
value forces a float dtype (`NaN` cells force it separately, see `normalize`).
An unparseable value coerces to `NaN`, modelled `none` — not to zero. -/
def toNumericF (v : RawValue) : Option (ℚ × Bool) :=
  match v with
  | .null => none
  | .num q => some (q, q.den != 1)
  | .str s => parseDecimal s

/-- The coerced numeric value of a cell (`NaN` ↦ `none`). -/
def toNumeric (v : RawValue) : Option ℚ := (toNumericF v).map Prod.fst

/-- The year part of the synthesized date string: `astype(str)` of the year
cell parses as a year exactly when it renders as a plain digit string.  A
`NaN`/null year renders as "nan"/"None" and a float as e.g. "2024.0", both of
which make `pd.to_datetime` fail on the whole column. -/
def yearDigits (v : RawValue) : Option Nat :=
  match v with
  | .num q => if q.den == 1 && decide (0 ≤ q.num) then some q.num.toNat else none
  | .str s => if s.length != 0 && s.all Char.isDigit then s.toNat? else none
  | .null => none

/-- A calendar date as produced by `pd.to_datetime(... + "-01")`: the first
day of a (year, month). -/
structure Date where
  year : Nat
  month : Nat
deriving DecidableEq, Repr

/-- Line 87 of app.py, elementwise: the code builds the string
`str(year) + "-" + str(month) + "-01"` and parses it with `pd.to_datetime`
(default `errors="raise"`).  The month renders as a digit string exactly when
the month column has integer dtype (`intCol`: no `NaN` and no float in the
column — otherwise the cell renders as "nan" or e.g. "3.0"); parsing then
succeeds iff the year renders as digits and the month is a valid calendar
month 1..12. -/
def toDatetimeElem (intCol : Bool) (y : RawValue) (m : Option (ℚ × Bool)) : Option Date :=
  match yearDigits y, m with
  | some yn, some mq =>
    if intCol && decide (1 ≤ mq.1) && decide (mq.1 ≤ 12) then
      some ⟨yn, mq.1.num.toNat⟩
    else none
  | _, _ => none

/-- The grouping/filter key taken from an `internal_type` cell.  pandas keeps
the raw scalar; the data's labels are strings, and we render a numeric label
by its decimal form.  A `NaN` cell has no key. -/
def strKey (v : RawValue) : Option String :=
  match v with
  | .str s => some s
  | .num q => some (toString q)
  | .null => none

instance {ε α : Type} [DecidableEq ε] [DecidableEq α] : DecidableEq (Except ε α) :=
  fun a b =>
    match a, b with
    | .ok x, .ok y =>
      match decEq x y with
      | isTrue h => isTrue (by rw [h])
      | isFalse h => isFalse (fun hc => h (Except.ok.inj hc))
    | .error x, .error y =>
      match decEq x y with
      | isTrue h => isTrue (by rw [h])
      | isFalse h => isFalse (fun hc => h (Except.error.inj hc))
    | .ok _, .error _ => isFalse (fun hc => Except.noConfusion hc)
    | .error _, .ok _ => isFalse (fun hc => Except.noConfusion hc)

/-- One row of the cleaned DataFrame (state after line 88 of app.py). -/
structure CanonicalRecord where
  internal_type : Option String
  month : Option ℚ
  year : RawValue
  date : Date
  total : Option ℚ
  contracts : Option ℚ
  province : String
deriving DecidableEq, Repr

/-- The cleaning of one row (lines 81–88 of app.py): numeric coercion of
`month`/`contracts`/`total`, year fallback, date synthesis, unconditional
`province = "Desconocido"`.  Returns `none` when the synthesized date string
of this row does not parse (which aborts the whole `pd.to_datetime` call). -/
def canonOne (intCol : Bool) (yearCol : Bool) (fallbackYear : Int) (r : RawRecord) :
    Option CanonicalRecord :=
  let m := toNumericF (getVal r "month")
  let y : RawValue := if yearCol then getVal r "year" else .num (fallbackYear : ℚ)
  match toDatetimeElem intCol y m with
  | none => none
  | some d => some {
      internal_type := strKey (getVal r "internal_type")
      month := m.map Prod.fst
      year := y
      date := d
      total := toNumeric (getVal r "total")
      contracts := toNumeric (getVal r "contracts")
      province := "Desconocido" }

/-- Option traversal: `pd.to_datetime` with `errors="raise"` fails the whole
column as soon as one element fails. -/
def traverseOption {α β : Type} (f : α → Option β) : List α → Option (List β)
  | [] => some []
  | a :: t =>
    match f a, traverseOption f t with
    | some b, some bs => some (b :: bs)
    | _, _ => none

/-- Lines 78–88 of app.py: the whole normalization block.  Accessing a
missing `month`/`contracts`/`total` column raises `KeyError`; a failing date
synthesis raises `ValueError` out of `pd.to_datetime`.  Both escape the
script (there is no try/except around this block); they are modelled as
`Except.error`. -/
def normalize (raw : List RawRecord) (fallbackYear : Int) :
    Except String (List CanonicalRecord) :=
  let recs := lowerRecs raw
  if ¬ hasCol recs "month" then .error "KeyError: month"
  else if ¬ hasCol recs "contracts" then .error "KeyError: contracts"
  else if ¬ hasCol recs "total" then .error "KeyError: total"
  else
    let intCol := recs.all (fun r =>
      match toNumericF (getVal r "month") with
      | some mq => !mq.2
      | none => false)
    match traverseOption (canonOne intCol (hasCol recs "year") fallbackYear) recs with
    | none => .error "ValueError: to_datetime"
    | some t => .ok t

/-- Line 95 of app.py: `df[df["internal_type"].isin(selected_types)]`.  A
`NaN` key is never a member of the selection list, so such rows are dropped. -/
def filterTable (table : List CanonicalRecord) (sel : List String) :
    List CanonicalRecord :=
  table.filter (fun r =>
    match r.internal_type with
    | some t => decide (t ∈ sel)
    | none => false)

/-- Insertion into an ascending list (helper of `sortAsc`). -/
def insertAsc {α : Type} (le : α → α → Bool) (a : α) : List α → List α
  | [] => [a]
  | b :: t => if le a b then a :: b :: t else b :: insertAsc le a t

/-- Stable insertion sort, ascending with respect to `le`.  Models both
Python's `sorted` and the ascending stable argsort that numpy performs on
the small arrays at hand (introsort falls back to a stable insertion sort
below 16 elements). -/
def sortAsc {α : Type} (le : α → α → Bool) : List α → List α
  | [] => []
  | a :: t => insertAsc le a (sortAsc le t)

/-- Line 92 of app.py, and the group keys of the `internal_type` groupbys:
`sorted(df["internal_type"].dropna().unique())`. -/
def catsOf (view : List CanonicalRecord) : List String :=
  sortAsc strLeB (view.filterMap (fun r => r.internal_type)).dedup

/-- The distinct present months of a view, ascending (group keys of the
`month` groupbys; `groupby` drops `NaN` keys and sorts). -/
def monthsOf (view : List CanonicalRecord) : List ℚ :=
  sortAsc (fun a b => decide (a ≤ b)) (view.filterMap (fun r => r.month)).dedup

/-- The contribution of a row to a groupby sum of `total`: a `NaN` total is
skipped by the sum, i.e. contributes 0. -/
def wTot (r : CanonicalRecord) : ℚ := r.total.getD 0

/-- Sum of `total` over the rows with a given group key (one group of a
pandas `groupby(...)["total"].sum()`; skipna sum, a group of `NaN`s sums
to 0). -/
def keySum {κ : Type} [DecidableEq κ] (key : CanonicalRecord → Option κ)
    (view : List CanonicalRecord) (k : κ) : ℚ :=
  listRatSum ((view.filter fun r => decide (key r = some k)).map wTot)

/-- Summed `total` of one `internal_type` group (line 109). -/
def categorySum (view : List CanonicalRecord) (c : String) : ℚ :=
  keySum (fun r => r.internal_type) view c

/-- Summed `total` of one `month` group (line 116). -/
def monthSum (view : List CanonicalRecord) (m : ℚ) : ℚ :=
  keySum (fun r => r.month) view m

/-- The (month, internal_type) key of a row for the pivot groupby; missing
when either component is `NaN` (such rows are dropped by the groupby). -/
def pairKey (r : CanonicalRecord) : Option (ℚ × String) :=
  match r.month, r.internal_type with
  | some m, some c => some (m, c)
  | _, _ => none

/-- One pivot cell (line 128–129): the summed `total` of the (month, type)
group; an absent combination is a `NaN` cell filled by `fillna(0)`, and
indeed the empty sum is 0. -/
def cellSum (view : List CanonicalRecord) (m : ℚ) (c : String) : ℚ :=
  keySum pairKey view (m, c)

/-- Line 109 of app.py: `groupby("internal_type")["total"].sum()` (groups
ascending by key) then `sort_values("total", ascending=False)`.  pandas
implements the descending sort through `nargsort`, which reverses the
values before the ascending argsort and reverses the resulting indexer
again afterwards; the double reversal makes the descending sort stable, so
rows with equal totals keep the groupby's name-ascending order.  It is
modelled as reverse ∘ stable-ascending-sort ∘ reverse (insertion sort
models the argsort, which is stable on the small arrays at hand). -/
def byCategory (view : List CanonicalRecord) : List (String × ℚ) :=
  (sortAsc (fun p q => decide (p.2 ≤ q.2))
    ((catsOf view).map (fun c => (c, categorySum view c))).reverse).reverse

/-- Line 116 of app.py: `groupby("month")["total"].sum().sort_values("month")`,
months ascending. -/
def byMonth (view : List CanonicalRecord) : List (ℚ × ℚ) :=
  (monthsOf view).map (fun m => (m, monthSum view m))

/-- Lines 128–129 of app.py: the pivot, one row per `internal_type`
(ascending), one column per present month (ascending), cells `fillna(0)`. -/
def pivotRows (view : List CanonicalRecord) : List (String × List ℚ) :=
  (catsOf view).map (fun c => (c, (monthsOf view).map (fun m => cellSum view m c)))

/-- Grand total of the ByCategory view. -/
def aggGrandSum (view : List CanonicalRecord) : ℚ :=
  listRatSum ((byCategory view).map Prod.snd)

/-- Grand total of the ByMonth view. -/
def monthGrandSum (view : List CanonicalRecord) : ℚ :=
  listRatSum ((byMonth view).map Prod.snd)

/-- Grand total of the pivot, summed over all cells. -/
def pivotGrandSum (view : List CanonicalRecord) : ℚ :=
  listRatSum ((pivotRows view).map (fun row => listRatSum row.2))

/-- The `total` values present in a view (`NaN` skipped), in row order. -/
def presentTotals (view : List CanonicalRecord) : List ℚ :=
  view.filterMap (fun r => r.total)

/-- Line 101: `df_filtered["total"].sum()` (skipna; empty sum is 0). -/
def kpiSum (view : List CanonicalRecord) : ℚ := listRatSum (presentTotals view)

/-- Line 102: `df_filtered["total"].mean()` — arithmetic mean over the
non-`NaN` totals; `NaN` (here `none`) when there are none. -/
def kpiMean (view : List CanonicalRecord) : Option ℚ :=
  match presentTotals view with
  | [] => none
  | t :: ts => some (divNat (listRatSum (t :: ts)) (t :: ts).length)

/-- Line 103: `df_filtered["total"].max()` — maximum of the non-`NaN`
totals; `NaN` when there are none. -/
def kpiMax (view : List CanonicalRecord) : Option ℚ :=
  match presentTotals view with
  | [] => none
  | t :: ts => some (ts.foldl max t)

/-- Chunks of three, least significant first (helper of the thousands
separator of the `:,.0f` format). -/
def groupThrees : List Char → List (List Char)
  | [] => []
  | [a] => [[a]]
  | [a, b] => [[a, b]]
  | a :: b :: c :: rest => [a, b, c] :: groupThrees rest

/-- Round half to even, as Python's `format` does for `.0f`. -/
def roundHalfEven (q : ℚ) : Int :=
  let f := ⌊q⌋
  let r := q - f
  if r < 1/2 then f else if 1/2 < r then f + 1 else if f % 2 = 0 then f else f + 1

/-- Python's `f"{x:,.0f}"` on a (finite) float: round to integer, insert
thousands separators.  (The negative-zero rendering of floats is not
reproduced.) -/
def pyFormatCommaNoDec (q : ℚ) : String :=
  let n := roundHalfEven q
  let ds := (toString n.natAbs).toList
  let s := String.intercalate ","
    (((groupThrees ds.reverse).map (fun c => String.mk c.reverse)).reverse)
  if n < 0 then "-" ++ s else s

/-- How lines 102–103 render a possibly-`NaN` metric: Python formats the
float `nan` as the string "nan" under `:,.0f`. -/
def displayMetric (x : Option ℚ) : String :=
  match x with
  | none => "nan"
  | some q => pyFormatCommaNoDec q

/-- The rendered mean KPI (line 102). -/
def kpiMeanDisplay (view : List CanonicalRecord) : String :=
  displayMetric (kpiMean view)

/-- The rendered max KPI (line 103). -/
def kpiMaxDisplay (view : List CanonicalRecord) : String :=
  displayMetric (kpiMax view)

/-- What the remote interaction of `load_api` can yield before the function
body handles it: a transport-level exception, or an HTTP response with a
status and (when the payload is valid JSON) a parsed record list. -/
inductive FetchOutcome where
  | transportError (msg : String)
  | httpResponse (status : Nat) (body : Option (List RawRecord))
deriving DecidableEq, Repr

/-- Result of `load_api`: the DataFrame rows plus the diagnostics written to
the page (`st.warning` / `st.error`). -/
structure LoadResult where
  table : List RawRecord
  diags : List String
deriving DecidableEq, Repr

/-- Lines 15–40 of app.py: non-200 status → warning and empty frame; any
raised exception (transport failure, JSON decode failure) → error message and
empty frame; empty payload → warning and empty frame. -/
def load_api (o : FetchOutcome) : LoadResult :=
  match o with
  | .transportError msg =>
    ⟨[], ["Error al conectar con el API: " ++ msg]⟩
  | .httpResponse status body =>
    if status ≠ 200 then
      ⟨[], ["Código HTTP " ++ toString status ++ ". Puede que el servidor no devuelva datos."]⟩
    else
      match body with
      | none => ⟨[], ["Error al conectar con el API: JSONDecodeError"]⟩
      | some data =>
        if data.isEmpty then ⟨data, ["El API devolvió una lista vacía."]⟩
        else ⟨data, []⟩

/-- Whether the fetch failed at transport level or with a non-success
status. -/
def fetchFailed (o : FetchOutcome) : Bool :=
  match o with
  | .transportError _ => true
  | .httpResponse status _ => decide (status ≠ 200)

/-- End state of one run of the script body (API branch): stopped at the
`df.empty` guard (line 73–75), crashed in the unguarded pandas code, or
rendered the filtered view with its aggregate views. -/
inductive PipelineResult where
  | stopped (diags : List String)
  | crashed (msg : String)
  | rendered (filtered : List CanonicalRecord) (agg : List (String × ℚ))
      (monthly : List (ℚ × ℚ)) (pivot : List (String × List ℚ))
deriving DecidableEq, Repr

/-- Lines 71–132 of app.py, API branch: load, stop when the frame is empty,
normalize, read the `internal_type` column (KeyError when absent), filter by
the selected categories, aggregate. -/
def pipeline (o : FetchOutcome) (fallbackYear : Int) (sel : List String) :
    PipelineResult :=
  let lr := load_api o
  if dfEmpty lr.table then .stopped lr.diags
  else
    match normalize lr.table fallbackYear with
    | .error e => .crashed e
    | .ok table =>
      if ¬ hasCol (lowerRecs lr.table) "internal_type" then
        .crashed "KeyError: internal_type"
      else
        let v := filterTable table sel
        .rendered v (byCategory v) (byMonth v) (pivotRows v)

end Compras

namespace Compras

/-- The two raw rows of the worked scenario of spec §8. -/
def rawScenario : List RawRecord :=
  [[("month", .str "3"), ("total", .str "100"), ("contracts", .str "2"),
    ("internal_type", .str "Compra")],
   [("month", .str "3"), ("total", .str "50"), ("contracts", .str "1"),
    ("internal_type", .str "Licitación")]]

/-- The canonical table that `normalize rawScenario 2024` produces. -/
def tblScenario : List CanonicalRecord :=
  [{ internal_type := some "Compra", month := some 3, year := .num 2024,
     date := ⟨2024, 3⟩, total := some 100, contracts := some 2,
     province := "Desconocido" },
   { internal_type := some "Licitación", month := some 3, year := .num 2024,
     date := ⟨2024, 3⟩, total := some 50, contracts := some 1,
     province := "Desconocido" }]

/-- A canonical row whose `total` failed numeric parsing (it is missing). -/
def recNoTotal : CanonicalRecord :=
  { internal_type := some "Compra", month := some 3, year := .num 2024,
    date := ⟨2024, 3⟩, total := none, contracts := some 2,
    province := "Desconocido" }

/-- A raw row whose `total` is the unparseable string "abc". -/
def rawAbcTotal : List RawRecord :=
  [[("month", .str "3"), ("total", .str "abc"), ("contracts", .str "2"),
    ("internal_type", .str "Compra")]]

/-- A raw row with a null `internal_type` (the key is present, the value is
JSON null, hence `NaN` in the frame). -/
def rawNullType : List RawRecord :=
  [[("month", .str "3"), ("total", .str "100"), ("contracts", .str "2"),
    ("internal_type", .null)]]

/-- The canonical table that `normalize rawNullType 2024` produces: the row
survives with a missing `internal_type`. -/
def tblNullType : List CanonicalRecord :=
  [{ internal_type := none, month := some 3, year := .num 2024,
     date := ⟨2024, 3⟩, total := some 100, contracts := some 2,
     province := "Desconocido" }]

/-- A raw row whose `month` is the unparseable string "abc". -/
def rawBadMonth : List RawRecord :=
  [[("month", .str "abc"), ("total", .str "100"), ("contracts", .str "1"),
    ("internal_type", .str "X")]]

/-- A second null-`internal_type` input, for the filter claim. -/
def rawNullTypeB : List RawRecord :=
  [[("month", .str "2"), ("total", .str "10"), ("contracts", .str "1"),
    ("internal_type", .null)]]

/-- The canonical table that `normalize rawNullTypeB 2024` produces. -/
def tblNullTypeB : List CanonicalRecord :=
  [{ internal_type := none, month := some 2, year := .num 2024,
     date := ⟨2024, 2⟩, total := some 10, contracts := some 1,
     province := "Desconocido" }]

/-- A raw row whose `total` is unparseable, leaving a view with no present
total at all. -/
def rawNoTotals : List RawRecord :=
  [[("month", .str "3"), ("total", .str "abc"), ("contracts", .str "1"),
    ("internal_type", .str "X")]]

/-- The canonical table that `normalize rawNoTotals 2024` produces. -/
def tblNoTotals : List CanonicalRecord :=
  [{ internal_type := some "X", month := some 3, year := .num 2024,
     date := ⟨2024, 3⟩, total := none, contracts := some 1,
     province := "Desconocido" }]

/-- A well-formed raw row followed by a well-formed but entirely empty
mapping (all optional fields missing). -/
def rawWithEmptyRow : List RawRecord :=
  [[("month", .str "3"), ("total", .str "100"), ("contracts", .str "2"),
    ("internal_type", .str "Compra")],
   []]

/-- Two categories with equal summed totals, to exercise the tie order of
the ByCategory sort. -/
def rawTie : List RawRecord :=
  [[("month", .str "1"), ("total", .str "50"), ("contracts", .str "1"),
    ("internal_type", .str "A")],
   [("month", .str "1"), ("total", .str "50"), ("contracts", .str "1"),
    ("internal_type", .str "B")]]

/-- The canonical table that `normalize rawTie 2024` produces. -/
def tblTie : List CanonicalRecord :=
  [{ internal_type := some "A", month := some 1, year := .num 2024,
     date := ⟨2024, 1⟩, total := some 50, contracts := some 1,
     province := "Desconocido" },
   { internal_type := some "B", month := some 1, year := .num 2024,
     date := ⟨2024, 1⟩, total := some 50, contracts := some 1,
     province := "Desconocido" }]

/-- A raw row that supplies its own `province` value. -/
def rawOwnProvince : List RawRecord :=
  [[("month", .str "5"), ("total", .str "7"), ("contracts", .str "3"),
    ("internal_type", .str "Obra"), ("province", .str "Pichincha")]]

/-- The canonical table that `normalize rawOwnProvince 2024` produces: the
supplied province has been overwritten. -/
def tblOwnProvince : List CanonicalRecord :=
  [{ internal_type := some "Obra", month := some 5, year := .num 2024,
     date := ⟨2024, 5⟩, total := some 7, contracts := some 3,
     province := "Desconocido" }]

end Compras

namespace Compras

theorem myMkRat_eq (n : Int) (d : Nat) : myMkRat n d = (n : ℚ) / (d : ℚ) := by
  rw [myMkRat]
  split
  · rename_i hd
    subst hd
    simp
  · rename_i hd
    rw [Rat.mk'_eq_divInt, Rat.divInt_eq_div]
    set g := n.natAbs.gcd d with hgdef
    have hg : g ≠ 0 := fun h => hd (Nat.gcd_eq_zero_iff.mp h).2
    have hgn : ((g : Nat) : Int) ∣ n :=
      Int.dvd_natAbs.mp (Int.natCast_dvd_natCast.mpr (Nat.gcd_dvd_left n.natAbs d))
    have hgd : g ∣ d := Nat.gcd_dvd_right n.natAbs d
    have hn : n = ((g : Nat) : Int) * (n / ((g : Nat) : Int)) :=
      (Int.mul_ediv_cancel' hgn).symm
    have hd2 : d = g * (d / g) := (Nat.mul_div_cancel' hgd).symm
    have hg0 : ((g : Nat) : ℚ) ≠ 0 := Nat.cast_ne_zero.mpr hg
    conv_rhs => rw [hn, hd2]
    push_cast
    rw [mul_div_mul_left _ _ hg0]
    norm_cast
    exact Rat.divInt_eq_div _ _

theorem ratAdd_eq (a b : ℚ) : ratAdd a b = a + b := by
  rw [ratAdd, myMkRat_eq]
  have ha : (a.den : ℚ) ≠ 0 := Nat.cast_ne_zero.mpr a.den_nz
  have hb : (b.den : ℚ) ≠ 0 := Nat.cast_ne_zero.mpr b.den_nz
  conv_rhs => rw [← Rat.num_div_den a, ← Rat.num_div_den b]
  push_cast
  field_simp

theorem listRatSum_eq : ∀ l : List ℚ, listRatSum l = l.sum
  | [] => rfl
  | a :: t => by rw [listRatSum, ratAdd_eq, List.sum_cons, listRatSum_eq t]

theorem divNat_eq (q : ℚ) (n : Nat) : divNat q n = q / (n : ℚ) := by
  rw [divNat, myMkRat_eq]
  by_cases hn : n = 0
  · subst hn
    simp
  · have hn0 : ((n : Nat) : ℚ) ≠ 0 := Nat.cast_ne_zero.mpr hn
    conv_rhs => rw [← Rat.num_div_den q]
    push_cast
    rw [div_div]

theorem sum_map_add {α : Type} (f g : α → ℚ) (l : List α) :
    (l.map (fun a => f a + g a)).sum = (l.map f).sum + (l.map g).sum := by
  induction l with
  | nil => simp
  | cons a t ih => simp [ih]; ring

theorem insertAsc_perm {α : Type} (le : α → α → Bool) (a : α) (l : List α) :
    List.Perm (insertAsc le a l) (a :: l) := by
  induction l with
  | nil => simp [insertAsc]
  | cons b t ih =>
    unfold insertAsc
    by_cases h : le a b
    · simp [h]
    · simp only [h, if_neg, Bool.false_eq_true, not_false_eq_true, if_false]
      exact (ih.cons b).trans (List.Perm.swap a b t)

theorem sortAsc_perm {α : Type} (le : α → α → Bool) (l : List α) :
    List.Perm (sortAsc le l) l := by
  induction l with
  | nil => simp [sortAsc]
  | cons a t ih => exact (insertAsc_perm le a (sortAsc le t)).trans (ih.cons a)

theorem mem_sortAsc {α : Type} (le : α → α → Bool) (l : List α) (x : α) :
    x ∈ sortAsc le l ↔ x ∈ l :=
  (sortAsc_perm le l).mem_iff

theorem mem_insertAsc {α : Type} (le : α → α → Bool) (a : α) (l : List α) (x : α) :
    x ∈ insertAsc le a l ↔ x = a ∨ x ∈ l := by
  rw [(insertAsc_perm le a l).mem_iff, List.mem_cons]

end Compras

namespace Compras

theorem keySum_cons {κ : Type} [DecidableEq κ] (key : CanonicalRecord → Option κ)
    (r : CanonicalRecord) (t : List CanonicalRecord) (k : κ) :
    keySum key (r :: t) k = (if key r = some k then wTot r else 0) + keySum key t k := by
  by_cases h : key r = some k <;> simp [keySum, listRatSum_eq, List.filter_cons, h]

theorem sum_ite_single {κ : Type} [DecidableEq κ] (v : ℚ) :
    ∀ (ks : List κ), ks.Nodup → ∀ k? : Option κ,
      (ks.map (fun k => if k? = some k then v else 0)).sum
        = match k? with
          | none => 0
          | some k0 => if k0 ∈ ks then v else 0 := by
  intro ks
  induction ks with
  | nil =>
    intro _ k?
    cases k? <;> simp
  | cons k rest ih =>
    intro hnd k?
    have hk : k ∉ rest := (List.nodup_cons.mp hnd).1
    have hrest := (List.nodup_cons.mp hnd).2
    cases k? with
    | none => simp
    | some k0 =>
      by_cases hkk : k0 = k
      · subst hkk
        have h2 := ih hrest (some k0)
        simp only [Option.some.injEq] at h2
        simp [h2, hk]
      · simp only [List.map_cons, List.sum_cons, ih hrest (some k0)]
        simp [hkk, Ne.symm hkk, List.mem_cons]

theorem keySum_partition {κ : Type} [DecidableEq κ] (key : CanonicalRecord → Option κ)
    (ks : List κ) (hks : ks.Nodup) :
    ∀ view : List CanonicalRecord,
      (ks.map (keySum key view)).sum
        = ((view.filter fun r =>
              match key r with
              | some k0 => decide (k0 ∈ ks)
              | none => false).map wTot).sum := by
  intro view
  induction view with
  | nil =>
    simp only [List.filter_nil, List.map_nil, List.sum_nil]
    induction ks with
    | nil => simp
    | cons k rest ih2 =>
      simpa [keySum, listRatSum_eq] using ih2 (List.Nodup.of_cons hks)
  | cons r t ih =>
    have hmap : ks.map (keySum key (r :: t))
        = ks.map (fun k => (if key r = some k then wTot r else 0) + keySum key t k) := by
      exact List.map_congr_left (fun k _ => keySum_cons key r t k)
    rw [hmap, sum_map_add, ih, sum_ite_single (wTot r) ks hks (key r)]
    cases hkr : key r with
    | none => simp [List.filter_cons, hkr]
    | some k0 =>
      by_cases hmem : k0 ∈ ks
      · simp [List.filter_cons, hkr, hmem]
      · simp [List.filter_cons, hkr, hmem]

end Compras

namespace Compras

theorem mem_catsOf (view : List CanonicalRecord) (c : String) :
    c ∈ catsOf view ↔ ∃ r ∈ view, r.internal_type = some c := by
  simp [catsOf, mem_sortAsc, List.mem_dedup, List.mem_filterMap]

theorem mem_monthsOf (view : List CanonicalRecord) (m : ℚ) :
    m ∈ monthsOf view ↔ ∃ r ∈ view, r.month = some m := by
  simp [monthsOf, mem_sortAsc, List.mem_dedup, List.mem_filterMap]

theorem catsOf_nodup (view : List CanonicalRecord) : (catsOf view).Nodup :=
  ((sortAsc_perm _ _).nodup_iff).mpr (List.nodup_dedup _)

theorem monthsOf_nodup (view : List CanonicalRecord) : (monthsOf view).Nodup :=
  ((sortAsc_perm _ _).nodup_iff).mpr (List.nodup_dedup _)

theorem aggGrandSum_eq (view : List CanonicalRecord) :
    aggGrandSum view = ((view.filter fun r => r.internal_type.isSome).map wTot).sum := by
  have hsum : ((byCategory view).map Prod.snd).sum
      = (((catsOf view).map (fun c => (c, categorySum view c))).map Prod.snd).sum := by
    rw [byCategory, List.map_reverse, List.sum_reverse]
    rw [((sortAsc_perm (fun p q : String × ℚ => decide (p.2 ≤ q.2))
      (((catsOf view).map (fun c => (c, categorySum view c))).reverse)).map
        Prod.snd).sum_eq]
    rw [List.map_reverse, List.sum_reverse]
  rw [aggGrandSum, listRatSum_eq, hsum, List.map_map]
  rw [show (Prod.snd ∘ fun c => (c, categorySum view c)) = categorySum view from rfl]
  rw [show categorySum view = keySum (fun r => r.internal_type) view from rfl]
  rw [keySum_partition (fun r => r.internal_type) (catsOf view) (catsOf_nodup view) view]
  apply congrArg
  apply congrArg
  apply List.filter_congr
  intro r hr
  cases hit : r.internal_type with
  | none => simp [hit]
  | some t0 => simp [hit, (mem_catsOf view t0).mpr ⟨r, hr, hit⟩]

theorem monthGrandSum_eq (view : List CanonicalRecord) :
    monthGrandSum view = ((view.filter fun r => r.month.isSome).map wTot).sum := by
  rw [monthGrandSum, listRatSum_eq, byMonth, List.map_map]
  rw [show (Prod.snd ∘ fun m => (m, monthSum view m)) = monthSum view from rfl]
  rw [show monthSum view = keySum (fun r => r.month) view from rfl]
  rw [keySum_partition (fun r => r.month) (monthsOf view) (monthsOf_nodup view) view]
  apply congrArg
  apply congrArg
  apply List.filter_congr
  intro r hr
  cases hm : r.month with
  | none => simp [hm]
  | some m0 => simp [hm, (mem_monthsOf view m0).mpr ⟨r, hr, hm⟩]

theorem pivotGrandSum_eq (view : List CanonicalRecord) :
    pivotGrandSum view
      = ((view.filter fun r => r.month.isSome && r.internal_type.isSome).map wTot).sum := by
  have hrow : ∀ c, ((monthsOf view).map (fun m => cellSum view m c)).sum
      = keySum (fun r =>
          match r.month with
          | some _ => r.internal_type
          | none => none) view c := by
    intro c
    have h1 : (monthsOf view).map (fun m => cellSum view m c)
        = ((monthsOf view).map (fun m => (m, c))).map (keySum pairKey view) := by
      rw [List.map_map]; rfl
    have hnd : ((monthsOf view).map (fun m => (m, c))).Nodup :=
      (monthsOf_nodup view).map (fun a b h => congrArg Prod.fst h)
    rw [h1, keySum_partition pairKey _ hnd view]
    unfold keySum
    rw [listRatSum_eq]
    apply congrArg
    apply congrArg
    apply List.filter_congr
    intro r hr
    cases hm : r.month with
    | none => cases hit : r.internal_type <;> simp [pairKey, hm, hit]
    | some m0 =>
      cases hit : r.internal_type with
      | none => simp [pairKey, hm, hit]
      | some c0 =>
        have hmem : m0 ∈ monthsOf view := (mem_monthsOf view m0).mpr ⟨r, hr, hm⟩
        by_cases hc : c0 = c
        · subst hc
          simp [pairKey, hm, hit, List.mem_map, hmem]
        · simp only [pairKey, hm, hit]
          simp [List.mem_map, hc, Ne.symm hc]
  have houter : (pivotRows view).map (fun row => listRatSum row.2)
      = (catsOf view).map (keySum (fun r =>
          match r.month with
          | some _ => r.internal_type
          | none => none) view) := by
    rw [pivotRows, List.map_map]
    refine List.map_congr_left (fun c _ => ?_)
    simp only [Function.comp_apply]
    rw [listRatSum_eq]
    exact hrow c
  rw [pivotGrandSum, listRatSum_eq, houter,
    keySum_partition (fun r =>
      match r.month with
      | some _ => r.internal_type
      | none => none) (catsOf view) (catsOf_nodup view) view]
  apply congrArg
  apply congrArg
  apply List.filter_congr
  intro r hr
  cases hm : r.month with
  | none => cases hit : r.internal_type <;> simp [hm, hit]
  | some m0 =>
    cases hit : r.internal_type with
    | none => simp [hm, hit]
    | some t0 => simp [hm, hit, (mem_catsOf view t0).mpr ⟨r, hr, hit⟩]

end Compras

namespace Compras

theorem toDatetimeElem_some_month {intCol : Bool} {y : RawValue} {m : Option (ℚ × Bool)}
    {d : Date} (h : toDatetimeElem intCol y m = some d) : m.isSome = true := by
  cases m with
  | none => cases hy : yearDigits y <;> simp [toDatetimeElem, hy] at h
  | some mq => rfl

theorem canonOne_fields {intCol yc : Bool} {fy : Int} {r : RawRecord} {rec : CanonicalRecord}
    (h : canonOne intCol yc fy r = some rec) :
    rec.month.isSome = true ∧ rec.province = "Desconocido" := by
  simp only [canonOne] at h
  split at h
  · exact Option.noConfusion h
  · rename_i d hd
    have hm := toDatetimeElem_some_month hd
    have hrec := Option.some.inj h
    subst hrec
    cases hq : toNumericF (getVal r "month") with
    | none => rw [hq] at hm; simp at hm
    | some mq => simp [hq]

theorem traverseOption_mem {α β : Type} (f : α → Option β) :
    ∀ {l : List α} {bs : List β}, traverseOption f l = some bs →
      ∀ b ∈ bs, ∃ a ∈ l, f a = some b := by
  intro l
  induction l with
  | nil =>
    intro bs h b hb
    simp only [traverseOption] at h
    have : ([] : List β) = bs := Option.some.inj h
    subst this
    simp at hb
  | cons a t ih =>
    intro bs h b hb
    simp only [traverseOption] at h
    cases hfa : f a with
    | none => rw [hfa] at h; simp at h
    | some b0 =>
      cases ht : traverseOption f t with
      | none => rw [hfa, ht] at h; simp at h
      | some bs0 =>
        rw [hfa, ht] at h
        have : b0 :: bs0 = bs := Option.some.inj h
        subst this
        rcases List.mem_cons.mp hb with hb0 | hbs
        · exact ⟨a, List.mem_cons_self a t, hb0 ▸ hfa⟩
        · rcases ih ht b hbs with ⟨a0, ha0, hfa0⟩
          exact ⟨a0, List.mem_cons_of_mem a ha0, hfa0⟩

theorem normalize_ok_fields {raw : List RawRecord} {y : Int} {table : List CanonicalRecord}
    (h : normalize raw y = .ok table) :
    ∀ r ∈ table, r.month.isSome = true ∧ r.province = "Desconocido" := by
  intro r hr
  simp only [normalize] at h
  split at h
  · exact Except.noConfusion h
  · split at h
    · exact Except.noConfusion h
    · split at h
      · exact Except.noConfusion h
      · split at h
        · exact Except.noConfusion h
        · rename_i t ht
          injection h with h2
          subst h2
          rcases traverseOption_mem _ ht r hr with ⟨rr, _, hc⟩
          exact canonOne_fields hc

theorem mem_filterTable {table : List CanonicalRecord} {sel : List String}
    {r : CanonicalRecord} (h : r ∈ filterTable table sel) :
    r ∈ table ∧ r.internal_type.isSome = true := by
  simp only [filterTable, List.mem_filter] at h
  refine ⟨h.1, ?_⟩
  have hp := h.2
  cases hit : r.internal_type with
  | none => rw [hit] at hp; simp at hp
  | some t0 => simp

end Compras

namespace Compras

theorem pairwise_insertAsc {α : Type} (le : α → α → Bool)
    (htot : ∀ a b, le a b = true ∨ le b a = true)
    (htrans : ∀ a b c, le a b = true → le b c = true → le a c = true)
    (a : α) (l : List α) (h : l.Pairwise (fun x y => le x y = true)) :
    (insertAsc le a l).Pairwise (fun x y => le x y = true) := by
  induction l with
  | nil => simp [insertAsc]
  | cons b t ih =>
    rcases List.pairwise_cons.mp h with ⟨hb, ht⟩
    unfold insertAsc
    by_cases hab : le a b = true
    · rw [if_pos hab]
      refine List.pairwise_cons.mpr ⟨?_, h⟩
      intro x hx
      rcases List.mem_cons.mp hx with rfl | hxt
      · exact hab
      · exact htrans a b x hab (hb x hxt)
    · rw [if_neg hab]
      refine List.pairwise_cons.mpr ⟨?_, ih ht⟩
      intro x hx
      rcases (mem_insertAsc le a t x).mp hx with rfl | hxt
      · rcases htot x b with h1 | h1
        · exact absurd h1 hab
        · exact h1
      · exact hb x hxt

theorem sortAsc_pairwise {α : Type} (le : α → α → Bool)
    (htot : ∀ a b, le a b = true ∨ le b a = true)
    (htrans : ∀ a b c, le a b = true → le b c = true → le a c = true)
    (l : List α) : (sortAsc le l).Pairwise (fun x y => le x y = true) := by
  induction l with
  | nil => simp [sortAsc]
  | cons a t ih => exact pairwise_insertAsc le htot htrans a (sortAsc le t) ih

theorem charListLt_irrefl : ∀ l : List Char, charListLt l l = false
  | [] => rfl
  | a :: t => by simp [charListLt, lt_irrefl, charListLt_irrefl t]

theorem charListLt_asymm : ∀ l1 l2 : List Char,
    charListLt l1 l2 = true → charListLt l2 l1 = false
  | [], [] => by simp [charListLt]
  | [], _ :: _ => fun _ => rfl
  | _ :: _, [] => by simp [charListLt]
  | a :: s, b :: t => by
    intro h
    by_cases hab : a < b
    · have hba : ¬ b < a := lt_asymm hab
      simp [charListLt, hab, hba]
    · by_cases hba : b < a
      · simp [charListLt, hab, hba] at h
      · have := charListLt_asymm s t (by simpa [charListLt, hab, hba] using h)
        simp [charListLt, hab, hba, this]

theorem charListLt_conn : ∀ l1 l2 : List Char,
    charListLt l1 l2 = false → charListLt l2 l1 = false → l1 = l2
  | [], [] => fun _ _ => rfl
  | [], _ :: _ => by simp [charListLt]
  | _ :: _, [] => by simp [charListLt]
  | a :: s, b :: t => by
    intro h1 h2
    by_cases hab : a < b
    · simp [charListLt, hab] at h1
    · by_cases hba : b < a
      · simp [charListLt, hba] at h2
      · have hab2 : a = b := le_antisymm (not_lt.mp hba) (not_lt.mp hab)
        subst hab2
        have h1' : charListLt s t = false := by
          simpa [charListLt, lt_irrefl] using h1
        have h2' : charListLt t s = false := by
          simpa [charListLt, lt_irrefl] using h2
        rw [charListLt_conn s t h1' h2']

theorem charListLt_trans : ∀ l1 l2 l3 : List Char,
    charListLt l1 l2 = true → charListLt l2 l3 = true → charListLt l1 l3 = true
  | [], [], _ => by simp [charListLt]
  | [], _ :: _, [] => by simp [charListLt]
  | [], _ :: _, _ :: _ => by simp [charListLt]
  | _ :: _, [], _ => by simp [charListLt]
  | _ :: _, _ :: _, [] => by simp [charListLt]
  | a :: s, b :: t, c :: u => by
    intro h1 h2
    by_cases hab : a < b
    · by_cases hbc : b < c
      · simp [charListLt, lt_trans hab hbc]
      · by_cases hcb : c < b
        · simp [charListLt, hbc, hcb] at h2
        · have hbc2 : b = c := le_antisymm (not_lt.mp hcb) (not_lt.mp hbc)
          subst hbc2
          simp [charListLt, hab]
    · by_cases hba : b < a
      · simp [charListLt, hab, hba] at h1
      · have hab2 : a = b := le_antisymm (not_lt.mp hba) (not_lt.mp hab)
        subst hab2
        have h1' : charListLt s t = true := by
          simpa [charListLt, lt_irrefl] using h1
        by_cases hac : a < c
        · simp [charListLt, hac]
        · by_cases hca : c < a
          · simp [charListLt, hac, hca] at h2
          · have h2' : charListLt t u = true := by
              simpa [charListLt, hac, hca] using h2
            simp [charListLt, hac, hca, charListLt_trans s t u h1' h2']

theorem strLeB_total (a b : String) : strLeB a b = true ∨ strLeB b a = true := by
  by_cases h : charListLt b.data a.data = true
  · right
    simp [strLeB, charListLt_asymm _ _ h]
  · left
    have h' : charListLt b.data a.data = false := by
      revert h
      cases charListLt b.data a.data <;> simp
    simp [strLeB, h']

theorem strLeB_trans (a b c : String) :
    strLeB a b = true → strLeB b c = true → strLeB a c = true := by
  intro h1 h2
  simp only [strLeB, Bool.not_eq_true'] at h1 h2 ⊢
  by_cases hca : charListLt c.data a.data = true
  · exfalso
    by_cases hcb : charListLt c.data b.data = true
    · rw [hcb] at h2
      simp at h2
    · by_cases hbc : charListLt b.data c.data = true
      · have := charListLt_trans _ _ _ hbc hca
        rw [this] at h1
        simp at h1
      · have hbc' : charListLt b.data c.data = false := by
          revert hbc
          cases charListLt b.data c.data <;> simp
        have hcb' : charListLt c.data b.data = false := by
          revert hcb
          cases charListLt c.data b.data <;> simp
        have heq := charListLt_conn b.data c.data hbc' hcb'
        rw [heq] at h1
        rw [hca] at h1
        simp at h1
  · revert hca
    cases charListLt c.data a.data <;> simp

theorem strLtB_of_le_ne (a b : String) (hle : strLeB a b = true) (hne : a ≠ b) :
    strLtB a b = true := by
  simp only [strLeB, Bool.not_eq_true'] at hle
  by_cases h : charListLt a.data b.data = true
  · exact h
  · have h' : charListLt a.data b.data = false := by
      revert h
      cases charListLt a.data b.data <;> simp
    have heq := charListLt_conn a.data b.data h' hle
    exfalso
    apply hne
    cases a
    cases b
    exact congrArg String.mk heq

theorem catsOf_sorted (view : List CanonicalRecord) :
    (catsOf view).Pairwise (fun a b : String => strLtB a b = true) := by
  have h1 : (catsOf view).Pairwise (fun a b : String => strLeB a b = true) :=
    sortAsc_pairwise strLeB strLeB_total strLeB_trans _
  exact (h1.and (catsOf_nodup view)).imp
    (fun h => strLtB_of_le_ne _ _ h.1 h.2)

theorem insertAsc_lex (N : String → String → Prop) (p : String × ℚ)
    (s : List (String × ℚ))
    (hs : s.Pairwise (fun x y => x.2 < y.2 ∨ (x.2 = y.2 ∧ N x.1 y.1)))
    (hname : ∀ q ∈ s, N p.1 q.1) :
    (insertAsc (fun x y => decide (x.2 ≤ y.2)) p s).Pairwise
      (fun x y => x.2 < y.2 ∨ (x.2 = y.2 ∧ N x.1 y.1)) := by
  induction s with
  | nil => simp [insertAsc]
  | cons q t ih =>
    rcases List.pairwise_cons.mp hs with ⟨hq, ht⟩
    unfold insertAsc
    by_cases hle : decide (p.2 ≤ q.2) = true
    · rw [if_pos hle]
      have hpq : p.2 ≤ q.2 := of_decide_eq_true hle
      refine List.pairwise_cons.mpr ⟨?_, hs⟩
      intro x hx
      rcases List.mem_cons.mp hx with rfl | hxt
      · rcases lt_or_eq_of_le hpq with h | h
        · exact Or.inl h
        · exact Or.inr ⟨h, hname x (List.mem_cons_self x t)⟩
      · have hqx := hq x hxt
        have hq2 : q.2 ≤ x.2 := by
          rcases hqx with h | h
          · exact le_of_lt h
          · exact le_of_eq h.1
        rcases lt_or_eq_of_le (le_trans hpq hq2) with h | h
        · exact Or.inl h
        · exact Or.inr ⟨h, hname x (List.mem_cons_of_mem q hxt)⟩
    · rw [if_neg hle]
      have hqp : q.2 < p.2 := not_le.mp (fun hc => hle (decide_eq_true hc))
      refine List.pairwise_cons.mpr
        ⟨?_, ih ht (fun x hx => hname x (List.mem_cons_of_mem q hx))⟩
      intro x hx
      rcases (mem_insertAsc _ p t x).mp hx with rfl | hxt
      · exact Or.inl hqp
      · exact hq x hxt

theorem sortAsc_lex (N : String → String → Prop) (l : List (String × ℚ))
    (h : l.Pairwise (fun x y => N x.1 y.1)) :
    (sortAsc (fun x y => decide (x.2 ≤ y.2)) l).Pairwise
      (fun x y => x.2 < y.2 ∨ (x.2 = y.2 ∧ N x.1 y.1)) := by
  induction l with
  | nil => simp [sortAsc]
  | cons p t ih =>
    rcases List.pairwise_cons.mp h with ⟨hp, ht⟩
    unfold sortAsc
    exact insertAsc_lex N p (sortAsc _ t) (ih ht)
      (fun x hx => hp x ((mem_sortAsc _ t x).mp hx))

end Compras

namespace Compras

/-- C1: for every filtered view of a successfully normalized table, the
three aggregate views conserve the same grand total — the CategoryByMonth
pivot summed over all cells equals the sum of the ByCategory totals, which
equals the sum of the ByMonth totals.  (Whenever normalization returns, the
date synthesis has forced every month to be present, so no view loses rows
to the month groupbys.) -/
theorem claim_c1_grand_totals_agree (raw : List RawRecord) (y : Int)
    (sel : List String) (table : List CanonicalRecord)
    (h : normalize raw y = .ok table) :
    pivotGrandSum (filterTable table sel) = aggGrandSum (filterTable table sel) ∧
    aggGrandSum (filterTable table sel) = monthGrandSum (filterTable table sel) := by
  have hm : ∀ r ∈ filterTable table sel, r.month.isSome = true :=
    fun r hr => (normalize_ok_fields h r (mem_filterTable hr).1).1
  have hti : ∀ r ∈ filterTable table sel, r.internal_type.isSome = true :=
    fun r hr => (mem_filterTable hr).2
  rw [pivotGrandSum_eq, aggGrandSum_eq, monthGrandSum_eq]
  have h1 : (filterTable table sel).filter
      (fun r => r.month.isSome && r.internal_type.isSome) = filterTable table sel :=
    List.filter_eq_self.mpr (fun r hr => by simp [hm r hr, hti r hr])
  have h2 : (filterTable table sel).filter (fun r => r.internal_type.isSome)
      = filterTable table sel :=
    List.filter_eq_self.mpr (fun r hr => hti r hr)
  have h3 : (filterTable table sel).filter (fun r => r.month.isSome)
      = filterTable table sel :=
    List.filter_eq_self.mpr (fun r hr => hm r hr)
  rw [h1, h2, h3]
  exact ⟨rfl, rfl⟩

/-- C1 witness: the spec §8 scenario, filtered by both categories; all three
grand totals agree (they are 150). -/
theorem claim_c1_witness :
    pivotGrandSum (filterTable tblScenario ["Compra", "Licitación"])
      = aggGrandSum (filterTable tblScenario ["Compra", "Licitación"]) ∧
    aggGrandSum (filterTable tblScenario ["Compra", "Licitación"])
      = monthGrandSum (filterTable tblScenario ["Compra", "Licitación"]) :=
  claim_c1_grand_totals_agree rawScenario 2024 ["Compra", "Licitación"]
    tblScenario (by decide)

/-- C2: a raw `total` of "abc" coerces to missing (not zero) in the
canonical record, and a row with a missing total is excluded from the KPI
mean and max while contributing 0 to the ByCategory, ByMonth and sum
aggregates. -/
theorem claim_c2_missing_total :
    toNumeric (.str "abc") = none ∧
    (normalize rawAbcTotal 2024).toOption.map (fun t => t.map (fun r => r.total))
      = some [none] ∧
    ∀ (r : CanonicalRecord) (view : List CanonicalRecord), r.total = none →
      kpiMean (r :: view) = kpiMean view ∧
      kpiMax (r :: view) = kpiMax view ∧
      kpiSum (r :: view) = kpiSum view ∧
      (∀ c, categorySum (r :: view) c = categorySum view c) ∧
      (∀ m, monthSum (r :: view) m = monthSum view m) := by
  refine ⟨by decide, by decide, ?_⟩
  intro r view hr
  have hpt : presentTotals (r :: view) = presentTotals view := by
    simp [presentTotals, List.filterMap_cons, hr]
  have hw : wTot r = 0 := by simp [wTot, hr]
  refine ⟨?_, ?_, ?_, ?_, ?_⟩
  · simp only [kpiMean, hpt]
  · simp only [kpiMax, hpt]
  · simp only [kpiSum, hpt]
  · intro c
    rw [show categorySum (r :: view) c
        = keySum (fun r => r.internal_type) (r :: view) c from rfl]
    rw [keySum_cons, hw]
    simp [categorySum]
  · intro m
    rw [show monthSum (r :: view) m = keySum (fun r => r.month) (r :: view) m from rfl]
    rw [keySum_cons, hw]
    simp [monthSum]

/-- C2 witness: a missing-total row prepended to the scenario table changes
neither the mean, the max and the sum, nor its category's and its month's
group sums. -/
theorem claim_c2_witness :
    kpiMean (recNoTotal :: tblScenario) = kpiMean tblScenario ∧
    kpiMax (recNoTotal :: tblScenario) = kpiMax tblScenario ∧
    kpiSum (recNoTotal :: tblScenario) = kpiSum tblScenario ∧
    categorySum (recNoTotal :: tblScenario) "Compra" = categorySum tblScenario "Compra" ∧
    monthSum (recNoTotal :: tblScenario) 3 = monthSum tblScenario 3 := by
  have h := claim_c2_missing_total.2.2 recNoTotal tblScenario (by decide)
  exact ⟨h.1, h.2.1, h.2.2.1, h.2.2.2.1 "Compra", h.2.2.2.2 3⟩

/-- C3 counterexample: a raw row whose `internal_type` is null normalizes to
a canonical record whose `internal_type` is missing — not to the category
"unspecified" as the claim states. -/
theorem claim_c3_counterexample :
    normalize rawNullType 2024 = .ok tblNullType ∧
    tblNullType.map (fun r => r.internal_type) = [none] :=
  ⟨by decide, by decide⟩

/-- C3 amended: after normalization a record's `internal_type` may still be
missing (no "unspecified" substitution happens), and every such row is
dropped by the category filter, whatever the selection — including the
select-all default. -/
theorem claim_c3_amended (raw : List RawRecord) (y : Int)
    (table : List CanonicalRecord) (h : normalize raw y = .ok table)
    (r : CanonicalRecord) (hr : r ∈ table) (hnone : r.internal_type = none)
    (sel : List String) : r ∉ filterTable table sel := by
  intro hmem
  have h2 := (mem_filterTable hmem).2
  rw [hnone] at h2
  simp at h2

/-- C3 witness: the null-type row of the counterexample input is dropped by
filtering with the full category list of its own table. -/
theorem claim_c3_witness :
    ({ internal_type := none, month := some 3, year := .num 2024,
       date := ⟨2024, 3⟩, total := some 100, contracts := some 2,
       province := "Desconocido" } : CanonicalRecord)
      ∉ filterTable tblNullType (catsOf tblNullType) :=
  claim_c3_amended rawNullType 2024 tblNullType (by decide) _ (by decide)
    (by decide) (catsOf tblNullType)

/-- C4: a raw record whose `month` does not coerce to a number makes the
whole normalization raise (the synthesized date string "2024-nan-01" is
rejected by `pd.to_datetime`, whose default is `errors="raise"`), instead of
leaving `date` missing: the code contradicts the spec's "no exceptions
escape" and "if `month` is missing, `date` is also missing". -/
theorem claim_c4_crash_on_missing_month :
    normalize rawBadMonth 2024 = .error "ValueError: to_datetime" := by decide

/-- C5: a transport failure or a non-200 status yields an empty table plus a
diagnostic message, and the script stops at the `df.empty` guard, so the
normalize/filter/aggregate steps are never reached. -/
theorem claim_c5_fetch_failure_stops (o : FetchOutcome) (y : Int)
    (sel : List String) (h : fetchFailed o = true) :
    (load_api o).table = [] ∧ (load_api o).diags ≠ [] ∧
    pipeline o y sel = .stopped (load_api o).diags := by
  cases o with
  | transportError msg =>
    exact ⟨rfl, by simp [load_api], rfl⟩
  | httpResponse s b =>
    have hs : s ≠ 200 := by simpa [fetchFailed] using h
    refine ⟨?_, ?_, ?_⟩
    · simp [load_api, hs]
    · simp [load_api, hs]
    · simp [pipeline, load_api, hs, dfEmpty]

/-- C5 witness: a 500 response produces the empty table, a diagnostic, and a
stopped pipeline. -/
theorem claim_c5_witness :
    (load_api (.httpResponse 500 none)).table = [] ∧
    (load_api (.httpResponse 500 none)).diags ≠ [] ∧
    pipeline (.httpResponse 500 none) 2024 [] = .stopped (load_api (.httpResponse 500 none)).diags :=
  claim_c5_fetch_failure_stops (.httpResponse 500 none) 2024 [] (by decide)

/-- C6 counterexample: for a table holding one row with a missing
`internal_type`, filtering with the table's own full category list yields
the empty view, not the table itself. -/
theorem claim_c6_counterexample :
    normalize rawNullTypeB 2024 = .ok tblNullTypeB ∧
    filterTable tblNullTypeB (catsOf tblNullTypeB) = [] ∧
    tblNullTypeB ≠ [] :=
  ⟨by decide, by decide, by decide⟩

/-- C6 amended: filtering with the empty selection is always empty, and
filtering with the set of all (present) categories yields the subsequence of
rows whose `internal_type` is present — which is the whole table, in order,
exactly when no row's category is missing. -/
theorem claim_c6_amended (table : List CanonicalRecord) :
    filterTable table [] = [] ∧
    filterTable table (catsOf table) = table.filter (fun r => r.internal_type.isSome) ∧
    ((∀ r ∈ table, r.internal_type.isSome = true) →
      filterTable table (catsOf table) = table) := by
  have h1 : filterTable table [] = [] := by
    rw [filterTable]
    apply List.filter_eq_nil_iff.mpr
    intro r hr
    cases hit : r.internal_type <;> simp [hit]
  have h2 : filterTable table (catsOf table)
      = table.filter (fun r => r.internal_type.isSome) := by
    rw [filterTable]
    apply List.filter_congr
    intro r hr
    cases hit : r.internal_type with
    | none => simp [hit]
    | some t0 => simp [hit, (mem_catsOf table t0).mpr ⟨r, hr, hit⟩]
  exact ⟨h1, h2, fun hall => by rw [h2]; exact List.filter_eq_self.mpr hall⟩

/-- C6 witness: on the scenario table (all categories present), the empty
selection gives the empty view and the full selection gives the table back. -/
theorem claim_c6_witness :
    filterTable tblScenario [] = [] ∧
    filterTable tblScenario (catsOf tblScenario) = tblScenario :=
  ⟨(claim_c6_amended tblScenario).1, (claim_c6_amended tblScenario).2.2 (by decide)⟩

/-- C7 counterexample: a filtered view whose only row has a missing `total`
reports mean and max as pandas `NaN`, rendered "nan" by the `:,.0f` format —
 not as an explicit "undefined" sentinel. -/
theorem claim_c7_counterexample :
    normalize rawNoTotals 2024 = .ok tblNoTotals ∧
    filterTable tblNoTotals ["X"] = tblNoTotals ∧
    kpiMean tblNoTotals = none ∧ kpiMax tblNoTotals = none ∧
    kpiMeanDisplay tblNoTotals = "nan" ∧ kpiMaxDisplay tblNoTotals = "nan" ∧
    kpiMeanDisplay tblNoTotals ≠ "undefined" := by decide

/-- C7 amended: when the view has no row with a present `total`, the KPI
mean and max are `NaN` (modelled `none`) and both render as the string
"nan"; no distinct sentinel is substituted. -/
theorem claim_c7_amended (view : List CanonicalRecord)
    (h : presentTotals view = []) :
    kpiMean view = none ∧ kpiMax view = none ∧
    kpiMeanDisplay view = "nan" ∧ kpiMaxDisplay view = "nan" := by
  have h1 : kpiMean view = none := by simp only [kpiMean, h]
  have h2 : kpiMax view = none := by simp only [kpiMax, h]
  exact ⟨h1, h2, by simp [kpiMeanDisplay, h1, displayMetric],
    by simp [kpiMaxDisplay, h2, displayMetric]⟩

/-- C7 witness: the all-missing-total table from the counterexample input. -/
theorem claim_c7_witness :
    kpiMean tblNoTotals = none ∧ kpiMax tblNoTotals = none ∧
    kpiMeanDisplay tblNoTotals = "nan" ∧ kpiMaxDisplay tblNoTotals = "nan" :=
  claim_c7_amended tblNoTotals (by decide)

/-- C8: a well-formed but empty mapping in the raw sequence (all optional
fields missing) makes normalization raise in the date synthesis — no
canonical table is produced at all, so the one-record-per-raw-record
property fails; the spec's "never drops a well-formed row" is the intent and
the crash is the code's slip (same root cause as C4). -/
theorem claim_c8_crash_on_empty_mapping :
    normalize rawWithEmptyRow 2024 = .error "ValueError: to_datetime" := by decide

/-- C9: the ByCategory view is ordered descending by summed total, and
categories with equal summed totals appear in ascending order of category
name — pandas' descending `sort_values` (`nargsort`) reverses the values
before the ascending argsort and reverses the indexer afterwards, so it is
stable and ties keep the groupby's name-ascending order.  The last conjunct
exhibits this on the tie input: the output is [("A", 50), ("B", 50)]. -/
theorem claim_c9_bycategory_order :
    (∀ view : List CanonicalRecord, (byCategory view).Pairwise
      (fun p q : String × ℚ => q.2 < p.2 ∨ (q.2 = p.2 ∧ strLtB p.1 q.1 = true))) ∧
    normalize rawTie 2024 = .ok tblTie ∧
    byCategory (filterTable tblTie ["A", "B"]) = [("A", 50), ("B", 50)] := by
  refine ⟨?_, by decide, by decide⟩
  intro view
  rw [byCategory, List.pairwise_reverse]
  have hpairs : (((catsOf view).map (fun c => (c, categorySum view c))).reverse).Pairwise
      (fun x y : String × ℚ => strLtB y.1 x.1 = true) := by
    rw [List.pairwise_reverse, List.pairwise_map]
    exact (catsOf_sorted view).imp (fun h => h)
  exact sortAsc_lex (fun a b => strLtB b a = true) _ hpairs

/-- C10: every record of every successfully normalized table has province
"Desconocido" — the assignment on line 88 overwrites unconditionally, even
when the raw record supplied its own province. -/
theorem claim_c10_province_overwritten (raw : List RawRecord) (y : Int)
    (table : List CanonicalRecord) (h : normalize raw y = .ok table) :
    ∀ r ∈ table, r.province = "Desconocido" :=
  fun r hr => (normalize_ok_fields h r hr).2

/-- C10 witness: a raw row that supplies province "Pichincha" still comes
out with province "Desconocido". -/
theorem claim_c10_witness :
    ({ internal_type := some "Obra", month := some 5, year := .num 2024,
       date := ⟨2024, 5⟩, total := some 7, contracts := some 3,
       province := "Desconocido" } : CanonicalRecord).province = "Desconocido" :=
  claim_c10_province_overwritten rawOwnProvince 2024 tblOwnProvince (by decide)
    _ (by decide)

end Compras
